import Mathlib

/-!
Verification development for the `website-status-checker` program
(`src/status_checker/src/main.rs`).

The program is shallowly embedded:

* Rust `String` values become `List Char` (so that every definition is
  executable and reduces inside the kernel).
* `Duration` values are modelled in whole milliseconds (`Nat`), matching the
  `as_millis` uses of the source; `SystemTime` values are modelled in whole
  seconds since the Unix epoch (`Int`, negative values standing for clock
  readings before the epoch), matching the `as_secs` uses of the source.
* The transport layer is an oracle: for a given URL, attempt number `k`
  either yields an HTTP status code (`Except.ok code`, transport success with
  any status code) or a transport-level error message (`Except.error msg`).
  A second oracle gives the cumulative clock reading at the end of attempt
  `k` (the source reads `start.elapsed()` once per iteration from a single
  `Instant` taken before the loop).
* The concurrent worker pool of `main` becomes a small-step transition
  relation on run states; any interleaving of workers is a sequence of
  steps of that relation.
-/

/-! ## Basic character and numeral helpers -/

/-- Decimal digits of `n`, least significant first; `fuel`-bounded structural
recursion (`fuel = n` always suffices). Mirrors the decimal rendering of the
Rust `Display` implementation for unsigned integers. -/
def natRevDigits : Nat → Nat → List Nat
  | 0, _ => []
  | fuel + 1, n => if n = 0 then [] else n % 10 :: natRevDigits fuel (n / 10)

/-- The decimal character rendering of `n`, as produced by Rust
`format!("\x7b\x7d", n)` for unsigned integers. -/
def natChars (n : Nat) : List Char :=
  if n = 0 then ['0'] else ((natRevDigits n n).reverse.map Nat.digitChar)

/-- Numeric value of a list of decimal digit characters (most significant
first), the standard decimal reading. -/
def digitsVal (cs : List Char) : Nat :=
  cs.foldl (fun a c => 10 * a + (c.toNat - 48)) 0

/-! ## The outcome record (`struct WebsiteStatus`) -/

/-- Decidable equality for `Except`, used to derive it for the outcome record. -/
instance (ε α : Type) [DecidableEq ε] [DecidableEq α] : DecidableEq (Except ε α) := fun x y =>
  match x, y with
  | .ok a, .ok b => if h : a = b then .isTrue (by rw [h]) else .isFalse (by simp [h])
  | .error a, .error b => if h : a = b then .isTrue (by rw [h]) else .isFalse (by simp [h])
  | .ok _, .error _ => .isFalse (by simp)
  | .error _, .ok _ => .isFalse (by simp)

/-- Embedding of the Rust struct `WebsiteStatus`:
`url: String`, `action_status: Result<u16, String>` (`ok` = status code,
`error` = transport error text), `response_time: Duration` (milliseconds),
`timestamp: SystemTime` (seconds since the Unix epoch, possibly negative). -/
structure WebsiteStatus where
  url : List Char
  action_status : Except (List Char) Nat
  response_time : Nat
  timestamp : Int
deriving DecidableEq, Repr

/-! ## `fetch_status`: the retry loop -/

/-- Result of running the `while attempts <= retries` loop of `fetch_status`:
either the loop returned an outcome after `sends` HTTP GET attempts having
slept `sleepMs` milliseconds in total between attempts, or control fell out
of the loop into the `unreachable!()` panic, or the modelling fuel ran out
(an artifact of the embedding; proved impossible). -/
inductive LoopOut where
  | done (s : WebsiteStatus) (sends : Nat) (sleepMs : Nat)
  | hitPanic
  | outOfFuel
deriving DecidableEq, Repr

/-- One-to-one embedding of the retry loop of `fetch_status`.

`res k` is the transport result of the GET issued on loop iteration with
`attempts = k`; `aEnd k` is the absolute clock time (ms) at which that
attempt completes, so `aEnd k - start` is the value of `start.elapsed()`
read on that iteration (cumulative across retries, since `start` is fixed
before the loop); `now k` is the `SystemTime::now()` reading (seconds) on
that iteration.  Each failed non-final iteration adds the fixed
`thread::sleep(Duration::from_millis(100))` pause. -/
def fetch_loop (res : Nat → Except (List Char) Nat) (aEnd : Nat → Nat)
    (start : Nat) (now : Nat → Int) (url : List Char) (retries : Nat) :
    Nat → Nat → Nat → LoopOut
  | _, _, 0 => .outOfFuel
  | attempts, sleepMs, fuel + 1 =>
    if attempts ≤ retries then
      match res attempts with
      | .ok code =>
        .done ⟨url, .ok code, aEnd attempts - start, now attempts⟩ (attempts + 1) sleepMs
      | .error e =>
        if attempts = retries then
          .done ⟨url, .error e, aEnd attempts - start, now attempts⟩ (attempts + 1) sleepMs
        else
          fetch_loop res aEnd start now url retries (attempts + 1) (sleepMs + 100) fuel
    else
      .hitPanic

/-- The full run of the loop of `fetch_status`, starting from
`attempts = 0` with no sleeps performed.  The fuel `retries + 2` is enough
for the loop to reach its answer (proved below). -/
def fetch_run (res : Nat → Except (List Char) Nat) (aEnd : Nat → Nat)
    (start : Nat) (now : Nat → Int) (url : List Char) (retries : Nat) : LoopOut :=
  fetch_loop res aEnd start now url retries 0 0 (retries + 2)

/-- Sentinel for the `unreachable!()` panic (never produced; proved below). -/
def panicStatus : WebsiteStatus := ⟨[], .error "panic".data, 0, 0⟩

/-- Embedding of `fetch_status`: the outcome value the function returns. -/
def fetch_status (res : Nat → Except (List Char) Nat) (aEnd : Nat → Nat)
    (start : Nat) (now : Nat → Int) (url : List Char) (retries : Nat) : WebsiteStatus :=
  match fetch_run res aEnd start now url retries with
  | .done s _ _ => s
  | _ => panicStatus

/-! ## The collector console line (`main`, `rx` loop) -/

/-- Embedding of the Rust iterator `e.split(':')`: the (always non-empty)
list of segments of `e` between occurrences of the separator. -/
def splitColon : List Char → List (List Char)
  | [] => [[]]
  | c :: rest =>
    if c = ':' then [] :: splitColon rest
    else
      match splitColon rest with
      | h :: t => (c :: h) :: t
      | [] => [[c]]

/-- The characters of `e` strictly before the first `:` (all of `e` when no
`:` occurs). -/
def takeUntilColon : List Char → List Char
  | [] => []
  | c :: rest => if c = ':' then [] else c :: takeUntilColon rest

/-- ASCII whitespace test (the whitespace class relevant to this program;
Rust `str::trim` uses Unicode whitespace, of which these are the ASCII
part). -/
def isWsChar (c : Char) : Bool := c == ' ' || c == '\t' || c == '\n' || c == '\r'

/-- Embedding of Rust `str::trim`: strip leading and trailing whitespace. -/
def trimChars (cs : List Char) : List Char :=
  ((cs.dropWhile isWsChar).reverse.dropWhile isWsChar).reverse

/-- Embedding of the error summary computed by the collector loop of `main`:
`e.split(':').next().unwrap_or("Unknown error").trim()`. -/
def shortErr (e : List Char) : List Char :=
  trimChars (((splitColon e).head?).getD "Unknown error".data)

/-- Embedding of the `println!` line the collector emits for one outcome.
`printTime` is the `SystemTime::now()` reading (seconds) at the moment the
line is printed; the bracketed number is
`status.timestamp.elapsed().unwrap().as_secs()`, i.e. the time since the
outcome was created, and the call panics (`none`) if the clock reads
earlier than the outcome timestamp. -/
def consoleLine (printTime : Int) (s : WebsiteStatus) : Option (List Char) :=
  if s.timestamp ≤ printTime then
    some ("[".data ++ natChars (printTime - s.timestamp).toNat ++ "] ".data ++ s.url ++
      " => ".data ++
      (match s.action_status with
       | .ok code => natChars code
       | .error e => "ERROR: ".data ++ shortErr e))
  else
    none

/-- The sequence of console lines emitted by the collector for the arrival
sequence `sent`, the `k`-th arrival being printed at clock time
`printAt k`. -/
def collectorLines (printAt : Nat → Int) : Nat → List WebsiteStatus → List (Option (List Char))
  | _, [] => []
  | k, s :: rest => consoleLine (printAt k) s :: collectorLines printAt (k + 1) rest

/-! ## Argument parsing (`parse_args`, `read_lines`) -/

/-- The configuration `parse_args` accumulates: URL list, worker count,
per-request timeout (seconds) and retry budget. -/
structure Config where
  urls : List (List Char)
  workers : Nat
  timeout : Nat
  retries : Nat
deriving DecidableEq, Repr

/-- Embedding of Rust `str::parse` for an unsigned integer type with
exclusive upper bound `bound` (`2^64` for `usize`/`u64`, `2^32` for `u32`):
an optional leading `+`, then one or more ASCII digits, rejecting overflow;
any other input is an error (`none`). -/
def parseUInt (bound : Nat) (cs : List Char) : Option Nat :=
  let ds := match cs with
    | '+' :: r => r
    | _ => cs
  if ds = [] then none
  else if ds.all Char.isDigit then
    if digitsVal ds < bound then some (digitsVal ds) else none
  else none

/-- The URLs contributed by the lines of a `--file` source: each line is
trimmed, then skipped if empty or starting with `#` (matching the loop body
over `lines.flatten()` in `parse_args`). -/
def fileUrls (lines : List (List Char)) : List (List Char) :=
  lines.filterMap (fun line =>
    let t := trimChars line
    if t = [] then none
    else if t.head? = some '#' then none
    else some t)

/-- One-to-one embedding of the argument scan loop of `parse_args`.
`fs` is the file-system oracle standing for `read_lines`: `none` models
`File::open` failing for that path (the `if let Ok(lines)` silently skips
it).  A flag in final position consumes no value and the loop ends, exactly
as the index-based Rust loop does. -/
def parseLoop (fs : List Char → Option (List (List Char))) :
    List (List Char) → Config → Config
  | [], c => c
  | a :: rest, c =>
    if a = "--file".data then
      match rest with
      | [] => c
      | p :: rest2 =>
        match fs p with
        | some lines => parseLoop fs rest2 { c with urls := c.urls ++ fileUrls lines }
        | none => parseLoop fs rest2 c
    else if a = "--workers".data then
      match rest with
      | [] => c
      | v :: rest2 =>
        parseLoop fs rest2 { c with workers := (parseUInt (2 ^ 64) v).getD c.workers }
    else if a = "--timeout".data then
      match rest with
      | [] => c
      | v :: rest2 =>
        parseLoop fs rest2 { c with timeout := (parseUInt (2 ^ 64) v).getD c.timeout }
    else if a = "--retries".data then
      match rest with
      | [] => c
      | v :: rest2 =>
        parseLoop fs rest2 { c with retries := (parseUInt (2 ^ 32) v).getD c.retries }
    else
      parseLoop fs rest { c with urls := c.urls ++ [a] }

/-- Result of `parse_args`: either the process exits with a code after
printing a message to stderr, or parsing yields a configuration. -/
inductive ParseResult where
  | exit (code : Nat) (message : List Char)
  | ok (c : Config)
deriving DecidableEq, Repr

/-- The usage line printed to stderr when no URLs were collected. -/
def usageMsg : List Char :=
  "Usage: website_checker [--file sites.txt] [URL ...] [--workers N] [--timeout S] [--retries N]".data

/-- The configuration before the scan loop: no URLs, default worker count
(`available_parallelism`, an oracle), timeout 5 s, retry budget 0. -/
def initConfig (defaultWorkers : Nat) : Config := ⟨[], defaultWorkers, 5, 0⟩

/-- Embedding of `parse_args`: scan all arguments, then exit 2 with the
usage message if no URLs were collected. -/
def parse_args (fs : List Char → Option (List (List Char)))
    (argv : List (List Char)) (defaultWorkers : Nat) : ParseResult :=
  let c := parseLoop fs argv (initConfig defaultWorkers)
  if c.urls = [] then .exit 2 usageMsg else .ok c

/-! ## `write_json`: the persisted report -/

/-- The `action_status` member text: `{ "Ok": <code> }` or
`{ "Err": "<message>" }`, exactly as `format!`-ted by `write_json`
(no escaping of the message). -/
def actionChunk : Except (List Char) Nat → List Char
  | .ok code => "\"action_status\": \x7b \"Ok\": ".data ++ natChars code ++ " \x7d".data
  | .error e => "\"action_status\": \x7b \"Err\": \"".data ++ e ++ "\" \x7d".data

/-- The timestamp text: seconds since the Unix epoch, or `0` when
`duration_since(UNIX_EPOCH)` fails (clock before the epoch). -/
def tsChunk (ts : Int) : List Char :=
  if 0 ≤ ts then natChars ts.toNat else ['0']

/-- The object text written for one record (without the inter-record
separator), exactly the `writeln!` sequence of `write_json`. -/
def recordObj (r : WebsiteStatus) : List Char :=
  "  \x7b\n    \"url\": \"".data ++ r.url ++ "\",\n    ".data ++
  actionChunk r.action_status ++
  ",\n    \"response_time_ms\": ".data ++ natChars r.response_time ++
  ",\n    \"timestamp\": \"".data ++ tsChunk r.timestamp ++
  "\"\n  \x7d".data

/-- One record followed by the separator: a comma unless it is the last
record, then the line break. -/
def recordChunk (r : WebsiteStatus) (lastOne : Bool) : List Char :=
  recordObj r ++ (if lastOne then [] else [',']) ++ ['\n']

/-- The record section of the document (`i == results.len() - 1` selects
the comma-less form). -/
def recordChunks : List WebsiteStatus → List Char
  | [] => []
  | [r] => recordChunk r true
  | r :: rs => recordChunk r false ++ recordChunks rs

/-- Embedding of `write_json`: the full text of `status.json`. -/
def write_json (rs : List WebsiteStatus) : List Char :=
  "[\n".data ++ recordChunks rs ++ "]\n".data

/-! ## The worker pool of `main` -/

/-- Transport and clock oracles per URL, feeding `fetch_status`. -/
structure ProbeOracle where
  res : List Char → Nat → Except (List Char) Nat
  aEnd : List Char → Nat → Nat
  start : List Char → Nat
  now : List Char → Nat → Int

/-- The outcome a worker computes for URL `u` (one full `fetch_status`
call). -/
def probeOf (O : ProbeOracle) (retries : Nat) (u : List Char) : WebsiteStatus :=
  fetch_status (O.res u) (O.aEnd u) (O.start u) (O.now u) u retries

/-- Global state of the concurrent run: the shared job queue, each worker
holding at most one URL it has taken but not yet reported, the flags of
workers that observed an empty queue and broke out of their loop, and the
channel arrival sequence. -/
structure RunState (W : Nat) where
  queue : List (List Char)
  hand : Fin W → Option (List Char)
  wdone : Fin W → Bool
  sent : List WebsiteStatus

/-- The state after `main` fills the queue and before any worker runs. -/
def initState (W : Nat) (urls : List (List Char)) : RunState W :=
  ⟨urls, fun _ => none, fun _ => false, []⟩

/-- Interleaving semantics of the worker pool: a worker atomically pops the
queue front under the mutex (`take`), computes the probe and sends the
outcome on the channel (`send`), or observes an empty queue and terminates
(`finish`). -/
inductive Step (O : ProbeOracle) (retries : Nat) {W : Nat} :
    RunState W → RunState W → Prop
  | take (s : RunState W) (i : Fin W) (u : List Char) (q : List (List Char)) :
      s.wdone i = false → s.hand i = none → s.queue = u :: q →
      Step O retries s ⟨q, Function.update s.hand i (some u), s.wdone, s.sent⟩
  | send (s : RunState W) (i : Fin W) (u : List Char) :
      s.hand i = some u →
      Step O retries s
        ⟨s.queue, Function.update s.hand i none, s.wdone,
          s.sent ++ [probeOf O retries u]⟩
  | finish (s : RunState W) (i : Fin W) :
      s.wdone i = false → s.hand i = none → s.queue = [] →
      Step O retries s ⟨s.queue, s.hand, Function.update s.wdone i true, s.sent⟩

/-- Reachability under any interleaving of worker steps. -/
def Reachable (O : ProbeOracle) (retries : Nat) {W : Nat} (a b : RunState W) : Prop :=
  Relation.ReflTransGen (Step O retries) a b

/-- All workers have terminated (the pool joins and the channel closes). -/
def Terminal {W : Nat} (s : RunState W) : Prop := ∀ i : Fin W, s.wdone i = true

/-! ## Exactly-once processing (claim C1) -/

/-- Multiset contribution of one worker hand. -/
def optMs : Option (List Char) → Multiset (List Char)
  | none => 0
  | some u => {u}

/-- Multiset of URLs currently held by workers. -/
def handMs {W : Nat} (h : Fin W → Option (List Char)) : Multiset (List Char) :=
  ∑ i : Fin W, optMs (h i)

/-- The run invariant: the submitted multiset of URLs is partitioned among
the queue, the worker hands and the sent outcomes; done workers hold
nothing; once any worker is done the queue is empty (it was empty when that
worker finished, and it never refills). -/
def RunInv (urls : List (List Char)) {W : Nat} (s : RunState W) : Prop :=
  ((s.queue : Multiset (List Char)) + handMs s.hand +
    ((s.sent.map WebsiteStatus.url : List (List Char)) : Multiset (List Char)) =
    (urls : Multiset (List Char))) ∧
  (∀ i, s.wdone i = true → s.hand i = none) ∧
  ((∃ i, s.wdone i = true) → s.queue = [])

/-- A concrete probe oracle for witnesses: every GET succeeds with 200. -/
def exOracle : ProbeOracle :=
  ⟨fun _ _ => .ok 200, fun _ _ => 5, fun _ => 0, fun _ _ => 50⟩

/-- A concrete file-system oracle for witnesses: no path can be opened. -/
def fsNone : List Char → Option (List (List Char)) := fun _ => none

/-- The terminal state of a concrete one-worker run over the single URL
`"a"`: take, probe-and-send, observe empty queue, exit. -/
def c1Final : RunState 1 :=
  ⟨[], Function.update (Function.update (fun _ => none) (0 : Fin 1) (some ['a'])) (0 : Fin 1) none,
   Function.update (fun _ => false) (0 : Fin 1) true,
   [] ++ [probeOf exOracle 0 ['a']]⟩

/-! ## End-to-end behaviours of `main` (claims C8 and C9) -/

/-- The observable behaviours of one invocation of `main`: either
`parse_args` collected no URL and the process exits 2 after printing the
usage line (no probing, no report), or parsing succeeds and, after the pool
drains under some interleaving, the process writes the report of the
collected outcomes to `status.json` and exits 0. -/
inductive MainRuns (fs : List Char → Option (List (List Char))) (O : ProbeOracle)
    (argv : List (List Char)) (defaultWorkers : Nat) :
    Nat → Option (List Char) → List WebsiteStatus → Prop
  | usage (u : List Char) :
      parse_args fs argv defaultWorkers = .exit 2 u →
      MainRuns fs O argv defaultWorkers 2 none []
  | completes (c : Config) (s : RunState c.workers) :
      parse_args fs argv defaultWorkers = .ok c →
      Reachable O c.retries (initState c.workers c.urls) s →
      Terminal s →
      MainRuns fs O argv defaultWorkers 0 (some (write_json s.sent)) s.sent

/-! ## Decoding and validating the persisted report (claim C5) -/

/-- Consume an expected literal prefix. -/
def dropLit : List Char → List Char → Option (List Char)
  | [], cs => some cs
  | p :: ps, c :: cs => if c = p then dropLit ps cs else none
  | _ :: _, [] => none

/-- Read a JSON string body up to the closing quote.  Escapes and raw
control characters are rejected: the writer never produces escapes, and a
raw control character inside a JSON string is invalid. -/
def readStr : List Char → Option (List Char × List Char)
  | [] => none
  | c :: cs =>
    if c = '"' then some ([], cs)
    else if c = '\\' ∨ c.toNat < 32 then none
    else
      match readStr cs with
      | some (s, rest) => some (c :: s, rest)
      | none => none

/-- Split a maximal ASCII digit prefix. -/
def readDigits : List Char → List Char × List Char
  | [] => ([], [])
  | c :: cs =>
    if c.isDigit then
      match readDigits cs with
      | (ds, rest) => (c :: ds, rest)
    else ([], c :: cs)

/-- Read a nonnegative JSON number (digit form). -/
def readNat (cs : List Char) : Option (Nat × List Char) :=
  match readDigits cs with
  | ([], _) => none
  | (ds, rest) => some (digitsVal ds, rest)

/-- Decode the `action_status` member (key and value), `Ok` form first,
`Err` form otherwise. -/
def decodeAction (cs : List Char) : Option (Except (List Char) Nat × List Char) :=
  match dropLit "\"action_status\": \x7b \"Ok\": ".data cs with
  | some cs1 =>
    match readNat cs1 with
    | none => none
    | some (code, cs2) =>
      match dropLit " \x7d".data cs2 with
      | none => none
      | some cs3 => some (.ok code, cs3)
  | none =>
    match dropLit "\"action_status\": \x7b \"Err\": \"".data cs with
    | none => none
    | some cs1 =>
      match readStr cs1 with
      | none => none
      | some (msg, cs2) =>
        match dropLit " \x7d".data cs2 with
        | none => none
        | some cs3 => some (.error msg, cs3)

/-- Decode the record separator: a comma and a line break between records,
a bare line break after the last one. -/
def decodeSep : List Char → Option (Bool × List Char)
  | ',' :: cs =>
    match dropLit "\n".data cs with
    | some r => some (true, r)
    | none => none
  | cs =>
    match dropLit "\n".data cs with
    | some r => some (false, r)
    | none => none

/-- Decode one report record (the exact object layout `write_json` emits),
returning the `(url, action_status, response_time_ms)` tuple, whether a
comma followed the record, and the remaining text. -/
def decodeRecord (cs : List Char) :
    Option ((List Char × Except (List Char) Nat × Nat) × Bool × List Char) :=
  match dropLit "  \x7b\n    \"url\": \"".data cs with
  | none => none
  | some cs1 =>
    match readStr cs1 with
    | none => none
    | some (url, cs2) =>
      match dropLit ",\n    ".data cs2 with
      | none => none
      | some cs3 =>
        match decodeAction cs3 with
        | none => none
        | some (act, cs4) =>
          match dropLit ",\n    \"response_time_ms\": ".data cs4 with
          | none => none
          | some cs5 =>
            match readNat cs5 with
            | none => none
            | some (ms, cs6) =>
              match dropLit ",\n    \"timestamp\": \"".data cs6 with
              | none => none
              | some cs7 =>
                match readNat cs7 with
                | none => none
                | some (_, cs8) =>
                  match dropLit "\"\n  \x7d".data cs8 with
                  | none => none
                  | some cs9 =>
                    match decodeSep cs9 with
                    | none => none
                    | some (hasComma, cs10) => some ((url, act, ms), hasComma, cs10)

/-- Decode the record sequence up to and including the closing `]`. -/
def decRecs : Nat → List Char → Option (List (List Char × Except (List Char) Nat × Nat))
  | 0, _ => none
  | fuel + 1, cs =>
    match decodeRecord cs with
    | none => none
    | some (t, true, rest) =>
      match decRecs fuel rest with
      | some ts => some (t :: ts)
      | none => none
    | some (t, false, rest) =>
      if rest = "]\n".data then some [t] else none

/-- Decode a persisted report document back to its
`(url, action_status, response_time_ms)` tuples. -/
def decodeReport (cs : List Char) :
    Option (List (List Char × Except (List Char) Nat × Nat)) :=
  match dropLit "[\n".data cs with
  | none => none
  | some cs1 =>
    if cs1 = "]\n".data then some [] else decRecs cs1.length cs1

/-- The tuples collected from the outcome list, in order. -/
def reportTuples (rs : List WebsiteStatus) :
    List (List Char × Except (List Char) Nat × Nat) :=
  rs.map (fun r => (r.url, r.action_status, r.response_time))

/-- Skip JSON insignificant whitespace. -/
def wsSkip : List Char → List Char
  | [] => []
  | c :: cs => if isWsChar c then wsSkip cs else c :: cs

/-- Parsing mode of the JSON syntax checker: a value, the member list of an
object (after `\x7b`), or the element list of an array (after `[`). -/
inductive JMode where
  | v
  | mems
  | elems

/-- A fuel-bounded JSON syntax checker (strings without escapes, digit-form
numbers, objects, arrays): `jP fuel mode cs` consumes one well-formed
production and returns the remaining text.  It accepts a subset of JSON, so
its success certifies JSON validity. -/
def jP : Nat → JMode → List Char → Option (List Char)
  | 0, _, _ => none
  | fuel + 1, .v, cs =>
    match wsSkip cs with
    | [] => none
    | c :: r =>
      if c = '"' then
        match readStr r with
        | some (_, rest) => some rest
        | none => none
      else if c = '\x7b' then
        match wsSkip r with
        | [] => none
        | c2 :: r2 => if c2 = '\x7d' then some r2 else jP fuel .mems r
      else if c = '[' then
        match wsSkip r with
        | [] => none
        | c2 :: r2 => if c2 = ']' then some r2 else jP fuel .elems r
      else
        match readNat (c :: r) with
        | some (_, rest) => some rest
        | none => none
  | fuel + 1, .mems, cs =>
    match wsSkip cs with
    | [] => none
    | c :: r =>
      if c = '"' then
        match readStr r with
        | none => none
        | some (_, r2) =>
          match wsSkip r2 with
          | [] => none
          | c2 :: r3 =>
            if c2 = ':' then
              match jP fuel .v r3 with
              | none => none
              | some r4 =>
                match wsSkip r4 with
                | [] => none
                | c3 :: r5 =>
                  if c3 = ',' then jP fuel .mems r5
                  else if c3 = '\x7d' then some r5
                  else none
            else none
      else none
  | fuel + 1, .elems, cs =>
    match jP fuel .v cs with
    | none => none
    | some r =>
      match wsSkip r with
      | [] => none
      | c :: r2 =>
        if c = ',' then jP fuel .elems r2
        else if c = ']' then some r2
        else none

/-- JSON syntactic validity of a document: one value, then only whitespace.
Success of this checker implies validity under the JSON grammar (it accepts
a strict subset of JSON). -/
def jsonValid (cs : List Char) : Bool :=
  match jP (cs.length + 1) JMode.v cs with
  | some rest => decide (wsSkip rest = [])
  | none => false

/-- Characters that `write_json` copies into a JSON string without breaking
it: no quote, no backslash, no control character. -/
def cleanChars (cs : List Char) : Bool :=
  cs.all (fun c => decide (c ≠ '"' ∧ c ≠ '\\' ∧ 32 ≤ c.toNat))

/-- A record all of whose string fields are clean. -/
def cleanRecord (r : WebsiteStatus) : Bool :=
  cleanChars r.url &&
    (match r.action_status with
     | .ok _ => true
     | .error e => cleanChars e)

/-- Master lemma about the retry loop: from any in-bounds attempt counter,
with enough fuel, the loop returns an outcome after at most `retries + 1`
GET attempts, and the outcome carries the requested URL. -/
theorem fetch_loop_done (res : Nat → Except (List Char) Nat) (aEnd : Nat → Nat)
    (start : Nat) (now : Nat → Int) (url : List Char) (retries : Nat) :
    ∀ fuel attempts sleepMs, attempts ≤ retries → retries - attempts < fuel →
      ∃ s n sl, fetch_loop res aEnd start now url retries attempts sleepMs fuel =
          .done s n sl ∧ attempts + 1 ≤ n ∧ n ≤ retries + 1 ∧ s.url = url := by
  intro fuel
  induction fuel with
  | zero => intro attempts sleepMs _ h; omega
  | succ fuel ih =>
    intro attempts sleepMs hle _
    rw [fetch_loop, if_pos hle]
    cases hres : res attempts with
    | ok code =>
      exact ⟨_, _, _, rfl, Nat.le_refl _, by omega, rfl⟩
    | error e =>
      by_cases heq : attempts = retries
      · exact ⟨⟨url, .error e, aEnd attempts - start, now attempts⟩, attempts + 1, sleepMs,
          by simp [heq], Nat.le_refl _, by omega, rfl⟩
      · obtain ⟨s, n, sl, hrun, h1, h2, h3⟩ :=
          ih (attempts + 1) (sleepMs + 100) (by omega) (by omega)
        refine ⟨s, n, sl, ?_, by omega, h2, h3⟩
        simp only [heq, if_false, if_neg heq]
        exact hrun

/-- Claim C4: for every url, timeout behaviour and retry budget, the retry
loop of `fetch_status` terminates with an outcome: the number of GET
attempts performed is between 1 and `retries + 1`, and neither the
`unreachable!()` after the loop nor the modelling fuel bound is ever
reached. -/
theorem c4_retry_loop_terminates (res : Nat → Except (List Char) Nat)
    (aEnd : Nat → Nat) (start : Nat) (now : Nat → Int) (url : List Char) (retries : Nat) :
    ∃ s n sl, fetch_run res aEnd start now url retries = .done s n sl ∧
      1 ≤ n ∧ n ≤ retries + 1 ∧ s.url = url := by
  obtain ⟨s, n, sl, hrun, h1, h2, h3⟩ :=
    fetch_loop_done res aEnd start now url retries (retries + 2) 0 0 (by omega) (by omega)
  exact ⟨s, n, sl, hrun, by omega, h2, h3⟩

/-- The outcome returned by `fetch_status` always carries the probed URL. -/
theorem fetch_status_url (res : Nat → Except (List Char) Nat)
    (aEnd : Nat → Nat) (start : Nat) (now : Nat → Int) (url : List Char) (retries : Nat) :
    (fetch_status res aEnd start now url retries).url = url := by
  obtain ⟨s, n, sl, hrun, _, _, h3⟩ := c4_retry_loop_terminates res aEnd start now url retries
  rw [fetch_status, hrun]
  exact h3

/-- If every attempt fails at transport level, the loop runs through all of
its budget: starting from counter `attempts`, it returns the failure of the
last attempt after `retries + 1` total sends, adding a 100 ms sleep for each
non-final failed attempt. -/
theorem fetch_loop_all_errors (msg : Nat → List Char) (aEnd : Nat → Nat)
    (start : Nat) (now : Nat → Int) (url : List Char) (retries : Nat) :
    ∀ fuel attempts sleepMs, attempts ≤ retries → retries - attempts < fuel →
      fetch_loop (fun k => .error (msg k)) aEnd start now url retries attempts sleepMs fuel =
        .done ⟨url, .error (msg retries), aEnd retries - start, now retries⟩
          (retries + 1) (sleepMs + 100 * (retries - attempts)) := by
  intro fuel
  induction fuel with
  | zero => intro attempts sleepMs _ h; omega
  | succ fuel ih =>
    intro attempts sleepMs hle hfuel
    rw [fetch_loop, if_pos hle]
    by_cases heq : attempts = retries
    · simp [heq]
    · have hrec := ih (attempts + 1) (sleepMs + 100) (by omega) (by omega)
      simp only [heq, if_false, if_neg heq, hrec]
      congr 1
      omega

/-- Claim C2: with retry budget `retries`, if every HTTP GET attempt fails
at transport level (`msg k` being the description of the error of attempt
`k`), `fetch_status` performs exactly `retries + 1` attempts, sleeps the
fixed 100 ms pause between consecutive attempts (`100 * retries` ms in
total), and returns a `Failure` outcome carrying the description of the
last error, with the cumulative elapsed time of the whole attempt
sequence. -/
theorem c2_all_failures_exhaust_budget (msg : Nat → List Char) (aEnd : Nat → Nat)
    (start : Nat) (now : Nat → Int) (url : List Char) (retries : Nat) :
    fetch_run (fun k => .error (msg k)) aEnd start now url retries =
      .done ⟨url, .error (msg retries), aEnd retries - start, now retries⟩
        (retries + 1) (100 * retries) := by
  have h := fetch_loop_all_errors msg aEnd start now url retries (retries + 2) 0 0
    (by omega) (by omega)
  rw [fetch_run, h]
  congr 1
  omega

/-- If the first `a` attempts fail and attempt `a` succeeds at transport
level, the loop starting from counter `attempts ≤ a` returns the success of
attempt `a` after `a + 1` total sends. -/
theorem fetch_loop_first_ok (msg : Nat → List Char) (code : Nat) (aEnd : Nat → Nat)
    (start : Nat) (now : Nat → Int) (url : List Char) (a retries : Nat) (ha : a ≤ retries) :
    ∀ fuel attempts sleepMs, attempts ≤ a → a - attempts < fuel →
      fetch_loop (fun j => if j < a then .error (msg j) else .ok code)
          aEnd start now url retries attempts sleepMs fuel =
        .done ⟨url, .ok code, aEnd a - start, now a⟩ (a + 1)
          (sleepMs + 100 * (a - attempts)) := by
  intro fuel
  induction fuel with
  | zero => intro attempts sleepMs _ h; omega
  | succ fuel ih =>
    intro attempts sleepMs hle hfuel
    rw [fetch_loop, if_pos (by omega : attempts ≤ retries)]
    by_cases hlt : attempts < a
    · have hne : attempts ≠ retries := by omega
      have hrec := ih (attempts + 1) (sleepMs + 100) (by omega) (by omega)
      simp only [hlt, if_true, if_pos hlt, hne, if_false, if_neg hne, hrec]
      congr 1
      omega
    · have heq : attempts = a := by omega
      subst heq
      simp [hlt]

/-- Claim C3: with retry budget `attempts + d` (any budget at least the
number of failed attempts), if the HTTP GET fails on the first `a` attempts
and succeeds at transport level on attempt `a` — whatever the returned
status code, 4xx/5xx included — then `fetch_status` returns a `Success`
outcome with that status code immediately, having performed exactly `a + 1`
attempts (no further ones), and the elapsed time of the outcome is measured
cumulatively from the start of the first attempt through the end of attempt
`a` (`aEnd a - start`), not reset per retry. -/
theorem c3_transport_success_returns_immediately (msg : Nat → List Char) (code : Nat)
    (aEnd : Nat → Nat) (start : Nat) (now : Nat → Int) (url : List Char) (a d : Nat) :
    fetch_run (fun j => if j < a then .error (msg j) else .ok code)
        aEnd start now url (a + d) =
      .done ⟨url, .ok code, aEnd a - start, now a⟩ (a + 1) (100 * a) := by
  have h := fetch_loop_first_ok msg code aEnd start now url a (a + d) (by omega)
    (a + d + 2) 0 0 (by omega) (by omega)
  rw [fetch_run, h]
  congr 1
  omega

theorem splitColon_ne_nil (cs : List Char) : splitColon cs ≠ [] := by
  cases cs with
  | nil => simp [splitColon]
  | cons c rest =>
    rw [splitColon]
    by_cases hc : c = ':'
    · simp [hc]
    · rw [if_neg hc]
      cases h : splitColon rest with
      | nil => simp
      | cons a t => simp

/-- `split(':').next()` always yields the segment before the first colon. -/
theorem splitColon_head (cs : List Char) :
    (splitColon cs).head? = some (takeUntilColon cs) := by
  induction cs with
  | nil => rfl
  | cons c rest ih =>
    rw [splitColon, takeUntilColon]
    by_cases hc : c = ':'
    · simp [hc]
    · rw [if_neg hc, if_neg hc]
      cases h : splitColon rest with
      | nil => exact absurd h (splitColon_ne_nil rest)
      | cons a t =>
        rw [h] at ih
        simp only [List.head?] at ih ⊢
        rw [Option.some.injEq] at ih
        rw [ih]

/-- Claim C6 fails as stated: counterexample.  The failure message
`"timed out"` contains no `:` separator, yet the printed summary is the
whole (trimmed) message, not `"Unknown error"`. -/
theorem c6_counterexample :
    ¬ (':' ∈ "timed out".data) ∧ shortErr "timed out".data ≠ "Unknown error".data := by
  decide

/-- Claim C6 as amended: for every failure message, the console summary is
the text before the first `:`, trimmed of surrounding whitespace; when the
message contains no `:`, that text is the whole message.  The
`"Unknown error"` default of the source is dead code: `split(':').next()`
always yields a segment. -/
theorem c6_error_summary (e : List Char) :
    (splitColon e).head? = some (takeUntilColon e) ∧
    shortErr e = trimChars (takeUntilColon e) ∧
    (¬ (':' ∈ e) → takeUntilColon e = e) := by
  refine ⟨splitColon_head e, ?_, ?_⟩
  · rw [shortErr, splitColon_head e]
    rfl
  · intro hmem
    induction e with
    | nil => rfl
    | cons c rest ih =>
      rw [takeUntilColon,
        if_neg (fun h => hmem (by rw [← h]; exact List.mem_cons_self c rest))]
      rw [ih (fun h => hmem (List.mem_cons_of_mem c h))]

/-- Witness for `c6_error_summary` at the concrete message `"timed out"`. -/
theorem c6_error_summary_witness :
    shortErr "timed out".data = trimChars (takeUntilColon "timed out".data) ∧
    takeUntilColon "timed out".data = "timed out".data :=
  ⟨(c6_error_summary "timed out".data).2.1,
   (c6_error_summary "timed out".data).2.2 (by decide)⟩

/-- Claim C7 fails as stated: counterexample.  An outcome whose probe took
5000 ms but which is printed at the very second it was created is printed
with bracketed value `0`, not its probe duration in whole seconds (`5`). -/
theorem c7_counterexample :
    consoleLine 100 ⟨"u".data, .ok 200, 5000, 100⟩ = some "[0] u => 200".data ∧
    consoleLine 100 ⟨"u".data, .ok 200, 5000, 100⟩ ≠
      some ("[".data ++
        natChars ((⟨"u".data, .ok 200, 5000, 100⟩ : WebsiteStatus).response_time / 1000) ++
        "] ".data ++ "u".data ++ " => ".data ++ natChars 200) := by
  decide

/-- Claim C7 as amended: the collector emits exactly one console line per
completed outcome, of the form `[E] <url> => <code>` for successes and
`[E] <url> => ERROR: <summary>` for failures, where `E` is the whole-second
duration between the outcome creation timestamp and the moment the line is
printed (not the probe elapsed time), and the line is only produced when
the printing clock does not read earlier than that timestamp. -/
theorem c7_console_lines (printAt : Nat → Int) (sent : List WebsiteStatus) (k0 : Nat) :
    (collectorLines printAt k0 sent).length = sent.length ∧
    (∀ k (hk : k < sent.length), (sent.get ⟨k, hk⟩).timestamp ≤ printAt (k0 + k) →
      (collectorLines printAt k0 sent)[k]? =
        some (some ("[".data ++
          natChars (printAt (k0 + k) - (sent.get ⟨k, hk⟩).timestamp).toNat ++ "] ".data ++
          (sent.get ⟨k, hk⟩).url ++ " => ".data ++
          (match (sent.get ⟨k, hk⟩).action_status with
           | .ok code => natChars code
           | .error e => "ERROR: ".data ++ shortErr e)))) := by
  induction sent generalizing k0 with
  | nil => exact ⟨rfl, fun k hk => by simp at hk⟩
  | cons s rest ih =>
    refine ⟨by simpa [collectorLines] using (ih (k0 + 1)).1, ?_⟩
    intro k hk hts
    cases k with
    | zero =>
      have hts0 : s.timestamp ≤ printAt k0 := by simpa using hts
      simp [collectorLines, consoleLine, hts0]
    | succ k =>
      have hk' : k < rest.length := by simpa using hk
      have hts' : (rest.get ⟨k, hk'⟩).timestamp ≤ printAt ((k0 + 1) + k) := by
        have : (k0 + 1) + k = k0 + (k + 1) := by omega
        rw [this]
        exact hts
      have hx := (ih (k0 + 1)).2 k hk' hts'
      have harr : (k0 + 1) + k = k0 + (k + 1) := by omega
      rw [harr] at hx
      simpa [collectorLines] using hx

/-- Witness for `c7_console_lines` on a concrete one-outcome arrival list. -/
theorem c7_console_lines_witness :
    ((97 : Int) ≤ (100 : Int)) ∧
    (collectorLines (fun _ => (100 : Int)) 0 [⟨"a".data, .ok 404, 3000, 97⟩])[0]? =
      some (some ("[".data ++ natChars ((100 : Int) - 97).toNat ++ "] ".data ++ "a".data ++
        " => ".data ++ natChars 404)) := by
  refine ⟨by decide, ?_⟩
  have h := (c7_console_lines (fun _ => (100 : Int)) [⟨"a".data, .ok 404, 3000, 97⟩] 0).2 0
    (by decide) (by decide)
  simpa using h

theorem handMs_update {W : Nat} (h : Fin W → Option (List Char)) (i : Fin W)
    (v : Option (List Char)) :
    handMs (Function.update h i v) + optMs (h i) = handMs h + optMs v := by
  have hfun : (fun j => optMs (Function.update h i v j)) =
      Function.update (fun j => optMs (h j)) i (optMs v) := by
    funext j
    by_cases hj : j = i
    · subst hj
      simp [Function.update]
    · simp [Function.update, hj]
  have h1 : handMs (Function.update h i v) =
      optMs v + ∑ j in Finset.univ \ {i}, optMs (h j) := by
    rw [handMs]
    calc (∑ j : Fin W, optMs (Function.update h i v j))
        = ∑ j : Fin W, Function.update (fun k => optMs (h k)) i (optMs v) j := by
          rw [hfun]
      _ = optMs v + ∑ j in Finset.univ \ {i}, optMs (h j) :=
          Finset.sum_update_of_mem (Finset.mem_univ i) _ _
  have h2 : handMs h = optMs (h i) + ∑ j in Finset.univ \ {i}, optMs (h j) := by
    have := Finset.sum_update_of_mem (Finset.mem_univ i) (fun k => optMs (h k)) (optMs (h i))
    calc handMs h = ∑ j : Fin W, Function.update (fun k => optMs (h k)) i (optMs (h i)) j := by
          rw [handMs]
          congr 1
          funext j
          by_cases hj : j = i
          · subst hj; simp [Function.update]
          · simp [Function.update, hj]
      _ = optMs (h i) + ∑ j in Finset.univ \ {i}, optMs (h j) := this
  rw [h1, h2]
  abel

theorem runInv_init (urls : List (List Char)) (W : Nat) :
    RunInv urls (initState W urls) := by
  refine ⟨?_, fun i h => rfl, fun ⟨i, h⟩ => by simp [initState] at h⟩
  show (urls : Multiset (List Char)) + handMs (fun _ => none) + ↑([] : List (List Char)) = _
  have : handMs (W := W) (fun _ => none) = 0 := by
    rw [handMs]
    simp [optMs]
  rw [this]
  simp

theorem runInv_step {W : Nat} (O : ProbeOracle) (retries : Nat)
    (urls : List (List Char)) (s s' : RunState W)
    (hstep : Step O retries s s') (hinv : RunInv urls s) : RunInv urls s' := by
  obtain ⟨hms, hdone, hq⟩ := hinv
  cases hstep with
  | take i u q hdi hhi hqi =>
    refine ⟨?_, ?_, ?_⟩
    · show (q : Multiset (List Char)) + handMs (Function.update s.hand i (some u)) +
        ↑(s.sent.map WebsiteStatus.url) = _
      have hupd := handMs_update s.hand i (some u)
      rw [hhi] at hupd
      simp only [optMs] at hupd
      rw [add_zero] at hupd
      rw [hqi] at hms
      rw [hupd]
      rw [← hms]
      have : ((u :: q : List (List Char)) : Multiset (List Char)) = u ::ₘ (q : Multiset (List Char)) := by
        simp
      rw [this]
      have hsing : (u ::ₘ (q : Multiset (List Char))) = {u} + (q : Multiset (List Char)) := by
        simp [Multiset.singleton_add]
      rw [hsing]
      abel
    · intro j hj
      have hj2 : s.wdone j = true := hj
      have hne : j ≠ i := by
        intro hji
        subst hji
        rw [hj2] at hdi
        exact Bool.true_eq_false.mp hdi
      show Function.update s.hand i (some u) j = none
      rw [Function.update_noteq hne]
      exact hdone j hj2
    · intro hex
      have : s.queue = [] := hq hex
      rw [hqi] at this
      exact absurd this (List.cons_ne_nil u q)
  | send i u hhi =>
    refine ⟨?_, ?_, ?_⟩
    · show (s.queue : Multiset (List Char)) + handMs (Function.update s.hand i none) +
        ↑((s.sent ++ [probeOf O retries u]).map WebsiteStatus.url) = _
      have hupd := handMs_update s.hand i none
      rw [hhi] at hupd
      simp only [optMs] at hupd
      rw [add_zero] at hupd
      have hurl : (probeOf O retries u).url = u := fetch_status_url _ _ _ _ _ _
      have hmap : ((s.sent ++ [probeOf O retries u]).map WebsiteStatus.url) =
          s.sent.map WebsiteStatus.url ++ [u] := by
        rw [List.map_append]
        simp [hurl]
      rw [hmap]
      have hco : ((s.sent.map WebsiteStatus.url ++ [u] : List (List Char)) : Multiset (List Char)) =
          ↑(s.sent.map WebsiteStatus.url) + ({u} : Multiset (List Char)) := by
        rw [← Multiset.coe_singleton, ← Multiset.coe_add]
      rw [hco, ← hms]
      have : handMs s.hand = handMs (Function.update s.hand i none) + {u} :=
        hupd.symm
      rw [this]
      abel
    · intro j hj
      have hj2 : s.wdone j = true := hj
      show Function.update s.hand i none j = none
      by_cases hji : j = i
      · subst hji
        simp [Function.update]
      · rw [Function.update_noteq hji]
        exact hdone j hj2
    · exact hq
  | finish i hdi hhi hqi =>
    refine ⟨hms, ?_, fun _ => hqi⟩
    intro j hj
    have hj2 : Function.update s.wdone i true j = true := hj
    show s.hand j = none
    by_cases hji : j = i
    · subst hji
      exact hhi
    · exact hdone j (by rwa [Function.update_noteq hji] at hj2)

theorem runInv_reachable {W : Nat} (O : ProbeOracle) (retries : Nat)
    (urls : List (List Char)) (s : RunState W)
    (hr : Reachable O retries (initState W urls) s) : RunInv urls s := by
  induction hr with
  | refl => exact runInv_init urls W
  | tail _ hstep ih => exact runInv_step O retries urls _ _ hstep ih

/-- Claim C1: for every non-empty URL list, every worker count `W ≥ 1`,
every retry budget and every interleaving of the workers, when the run
reaches a terminal state (all workers have observed the empty queue and
exited), the report contains exactly one outcome per submitted URL: the
sequence of URLs in the collected outcomes is a permutation of the
submitted list, so each URL occurs exactly as often in the report as it was
submitted — no duplicates, no drops. -/
theorem c1_exactly_one_record_per_url {W : Nat} (O : ProbeOracle) (retries : Nat)
    (urls : List (List Char)) (hW : 1 ≤ W) (_hne : urls ≠ []) (s : RunState W)
    (hr : Reachable O retries (initState W urls) s) (ht : Terminal s) :
    (s.sent.map WebsiteStatus.url).Perm urls ∧
    (∀ u, ((s.sent.map WebsiteStatus.url : List (List Char)) : Multiset (List Char)).count u =
      ((urls : List (List Char)) : Multiset (List Char)).count u) := by
  obtain ⟨hms, hdone, hq⟩ := runInv_reachable O retries urls s hr
  have hqe : s.queue = [] := hq ⟨⟨0, hW⟩, ht ⟨0, hW⟩⟩
  have hhand : ∀ i, s.hand i = none := fun i => hdone i (ht i)
  have hhm : handMs s.hand = 0 := by
    rw [handMs]
    have : ∀ i : Fin W, optMs (s.hand i) = 0 := fun i => by rw [hhand i]; rfl
    simp [this]
  rw [hqe, hhm] at hms
  simp only [Multiset.coe_nil, zero_add, add_zero] at hms
  have hperm : (s.sent.map WebsiteStatus.url).Perm urls := by
    rw [← Multiset.coe_eq_coe]
    simpa using hms
  refine ⟨hperm, fun u => ?_⟩
  rw [Multiset.coe_eq_coe.mpr hperm]

/-- Witness for `c1_exactly_one_record_per_url`: a complete one-worker run
over the single URL `"a"` reports exactly that URL. -/
theorem c1_exactly_one_record_per_url_witness :
    (c1Final.sent.map WebsiteStatus.url).Perm [['a']] := by
  have h1 : Step exOracle 0 (initState 1 [['a']])
      ⟨[], Function.update (initState 1 [['a']]).hand (0 : Fin 1) (some ['a']),
        (initState 1 [['a']]).wdone, (initState 1 [['a']]).sent⟩ :=
    Step.take _ (0 : Fin 1) ['a'] [] rfl rfl rfl
  have h2 : Step exOracle 0
      (⟨[], Function.update (initState 1 [['a']]).hand (0 : Fin 1) (some ['a']),
        (initState 1 [['a']]).wdone, (initState 1 [['a']]).sent⟩ : RunState 1)
      ⟨[], Function.update (Function.update (fun _ => none) (0 : Fin 1) (some ['a'])) (0 : Fin 1) none,
        (fun _ => false), [] ++ [probeOf exOracle 0 ['a']]⟩ :=
    Step.send _ (0 : Fin 1) ['a'] (by simp [initState, Function.update])
  have h3 : Step exOracle 0
      (⟨[], Function.update (Function.update (fun _ => none) (0 : Fin 1) (some ['a'])) (0 : Fin 1) none,
        (fun _ => false), [] ++ [probeOf exOracle 0 ['a']]⟩ : RunState 1)
      c1Final :=
    Step.finish _ (0 : Fin 1) rfl (by simp [Function.update]) rfl
  have hr : Reachable exOracle 0 (initState 1 [['a']]) c1Final :=
    Relation.ReflTransGen.head h1 (Relation.ReflTransGen.head h2
      (Relation.ReflTransGen.head h3 Relation.ReflTransGen.refl))
  have ht : Terminal c1Final := by
    intro i
    have hi : i = (0 : Fin 1) := Subsingleton.elim i 0
    subst hi
    show Function.update (fun _ => false) (0 : Fin 1) true 0 = true
    simp [Function.update]
  exact (c1_exactly_one_record_per_url exOracle 0 [['a']] (by omega) (by simp)
    c1Final hr ht).1

/-- Claim C8: whenever the argument scan collects no URL (no positional
argument, no `--file` contribution), `parse_args` prints the usage line to
stderr and exits with status 2; the run probes nothing and writes no
report. -/
theorem c8_empty_urls_usage_exit (fs : List Char → Option (List (List Char)))
    (O : ProbeOracle) (argv : List (List Char)) (d : Nat)
    (h : (parseLoop fs argv (initConfig d)).urls = []) :
    parse_args fs argv d = .exit 2 usageMsg ∧
    (∀ e r sent, MainRuns fs O argv d e r sent → e = 2 ∧ r = none ∧ sent = []) := by
  have hpa : parse_args fs argv d = .exit 2 usageMsg := by
    rw [parse_args]
    simp [h]
  refine ⟨hpa, ?_⟩
  intro e r sent hm
  cases hm with
  | usage u hu => exact ⟨rfl, rfl, rfl⟩
  | completes c s hc hr ht =>
    rw [hpa] at hc
    exact absurd hc (by simp)

/-- Witness for `c8_empty_urls_usage_exit`: no arguments at all. -/
theorem c8_empty_urls_usage_exit_witness :
    parse_args fsNone [] 4 = .exit 2 usageMsg :=
  (c8_empty_urls_usage_exit fsNone exOracle [] 4 rfl).1

/-- `--workers 0` parses successfully and overwrites the worker count with
0 (no fallback to the default). -/
theorem parseLoop_workers_zero (fs : List Char → Option (List (List Char)))
    (rest : List (List Char)) (c : Config) :
    parseLoop fs ("--workers".data :: "0".data :: rest) c =
      parseLoop fs rest { c with workers := 0 } := rfl

/-- With zero workers no pool step can fire. -/
theorem step_zero_workers (O : ProbeOracle) (retries : Nat) (s s' : RunState 0)
    (h : Step O retries s s') : False := by
  cases h with
  | take i u q hdi hhi hqi => exact i.elim0
  | send i u hhi => exact i.elim0
  | finish i hdi hhi hqi => exact i.elim0

/-- With zero workers the initial state is the only reachable state. -/
theorem reachable_zero_workers (O : ProbeOracle) (retries : Nat)
    (urls : List (List Char)) (s : RunState 0)
    (hr : Reachable O retries (initState 0 urls) s) : s = initState 0 urls := by
  induction hr with
  | refl => rfl
  | tail _ hstep ih => exact absurd hstep (fun h => step_zero_workers _ _ _ _ h)

/-- A non-flag argument is pushed to the URL list as-is. -/
theorem parseLoop_positional (fs : List Char → Option (List (List Char)))
    (u : List Char) (rest : List (List Char)) (c : Config)
    (h1 : u ≠ "--file".data) (h2 : u ≠ "--workers".data)
    (h3 : u ≠ "--timeout".data) (h4 : u ≠ "--retries".data) :
    parseLoop fs (u :: rest) c = parseLoop fs rest { c with urls := c.urls ++ [u] } := by
  rw [parseLoop.eq_def]
  simp only [if_neg h1, if_neg h2, if_neg h3, if_neg h4]

/-- Claim C9: `--workers 0` parses successfully (no fallback to the
default), so the pool spawns zero workers: nothing can ever be probed, the
only terminal behaviour of `main` is to write a report with no records and
exit 0 — even though the URL list is non-empty. -/
theorem c9_zero_workers_accepted (fs : List Char → Option (List (List Char)))
    (O : ProbeOracle) (d : Nat) (u : List Char)
    (h1 : u ≠ "--file".data) (h2 : u ≠ "--workers".data)
    (h3 : u ≠ "--timeout".data) (h4 : u ≠ "--retries".data) :
    parse_args fs ["--workers".data, "0".data, u] d = .ok ⟨[u], 0, 5, 0⟩ ∧
    (∀ e r sent, MainRuns fs O ["--workers".data, "0".data, u] d e r sent →
      e = 0 ∧ r = some (write_json []) ∧ sent = []) ∧
    MainRuns fs O ["--workers".data, "0".data, u] d 0 (some (write_json [])) [] := by
  have hloop : parseLoop fs ["--workers".data, "0".data, u] (initConfig d) =
      ⟨[u], 0, 5, 0⟩ := by
    rw [parseLoop_workers_zero]
    rw [parseLoop_positional fs u [] _ h1 h2 h3 h4]
    rfl
  have hpa : parse_args fs ["--workers".data, "0".data, u] d = .ok ⟨[u], 0, 5, 0⟩ := by
    rw [parse_args]
    simp [hloop]
  refine ⟨hpa, ?_, ?_⟩
  · intro e r sent hm
    cases hm with
    | usage v hu =>
      rw [hpa] at hu
      exact absurd hu (by simp)
    | completes c s hc hrr ht =>
      rw [hpa] at hc
      have hc2 : (⟨[u], 0, 5, 0⟩ : Config) = c := by
        injection hc
      subst hc2
      have hs : s = initState 0 [u] := reachable_zero_workers O 0 [u] s hrr
      subst hs
      exact ⟨rfl, rfl, rfl⟩
  · exact MainRuns.completes ⟨[u], 0, 5, 0⟩ (initState 0 [u]) hpa
      Relation.ReflTransGen.refl (fun i => i.elim0)

/-- Witness for `c9_zero_workers_accepted` with the concrete positional
URL `http://x`. -/
theorem c9_zero_workers_accepted_witness :
    parse_args fsNone ["--workers".data, "0".data, "http://x".data] 4 =
      .ok ⟨["http://x".data], 0, 5, 0⟩ ∧
    MainRuns fsNone exOracle ["--workers".data, "0".data, "http://x".data] 4
      0 (some (write_json [])) [] :=
  ⟨(c9_zero_workers_accepted fsNone exOracle 4 "http://x".data
      (by decide) (by decide) (by decide) (by decide)).1,
   (c9_zero_workers_accepted fsNone exOracle 4 "http://x".data
      (by decide) (by decide) (by decide) (by decide)).2.2⟩

/-- Claim C10: when the path given to `--file` cannot be opened, the error
is silently swallowed (`if let Ok(lines)` with no else): the scan state is
exactly as if the two arguments had not been there, no URLs are
contributed, and the rest of the run — including a possible empty-URL exit
— is unchanged. -/
theorem c10_unopenable_file_ignored (fs : List Char → Option (List (List Char)))
    (p : List Char) (rest : List (List Char)) (c : Config)
    (h : fs p = none) :
    parseLoop fs ("--file".data :: p :: rest) c = parseLoop fs rest c ∧
    (∀ d, parse_args fs ("--file".data :: p :: rest) d = parse_args fs rest d) := by
  have hl : ∀ c0 : Config, parseLoop fs ("--file".data :: p :: rest) c0 = parseLoop fs rest c0 := by
    intro c0
    rw [parseLoop.eq_def]
    simp [h]
  refine ⟨hl c, fun d => ?_⟩
  rw [parse_args, parse_args, hl]

/-- Witness for `c10_unopenable_file_ignored` at a file system where no
path opens. -/
theorem c10_unopenable_file_ignored_witness :
    parse_args fsNone ["--file".data, "sites.txt".data] 4 = parse_args fsNone [] 4 :=
  (c10_unopenable_file_ignored fsNone "sites.txt".data [] (initConfig 4) rfl).2 4

set_option maxRecDepth 20000 in
/-- Claim C5 fails as stated: counterexample.  For the failure message
consisting of a single quote character, the persisted document is not
syntactically valid JSON and decoding it fails. -/
theorem c5_counterexample :
    jsonValid (write_json [⟨"u".data, .error ['"'], 5, 10⟩]) = false ∧
    decodeReport (write_json [⟨"u".data, .error ['"'], 5, 10⟩]) = none := by
  decide

/-! ### Digit facts -/

theorem digitChar_facts (d : Nat) (hd : d < 10) :
    (Nat.digitChar d).isDigit = true ∧ (Nat.digitChar d).toNat - 48 = d := by
  interval_cases d <;> exact ⟨by decide, by decide⟩

theorem natRevDigits_lt10 (fuel : Nat) : ∀ n d, d ∈ natRevDigits fuel n → d < 10 := by
  induction fuel with
  | zero => intro n d h; simp [natRevDigits] at h
  | succ fuel ih =>
    intro n d h
    rw [natRevDigits] at h
    by_cases hn : n = 0
    · simp [hn] at h
    · rw [if_neg hn] at h
      rcases List.mem_cons.mp h with h1 | h2
      · subst h1; exact Nat.mod_lt _ (by omega)
      · exact ih _ _ h2

theorem digitsVal_rev (fuel : Nat) :
    ∀ n, n ≤ fuel → digitsVal ((natRevDigits fuel n).reverse.map Nat.digitChar) = n := by
  induction fuel with
  | zero =>
    intro n h
    interval_cases n
    rfl
  | succ fuel ih =>
    intro n hn
    by_cases h0 : n = 0
    · subst h0; rfl
    · rw [natRevDigits, if_neg h0]
      simp only [List.reverse_cons, List.map_append, List.map_cons, List.map_nil]
      rw [digitsVal, List.foldl_append]
      have ihv := ih (n / 10) (by omega)
      rw [digitsVal] at ihv
      rw [ihv]
      simp only [List.foldl_cons, List.foldl_nil]
      have hd := (digitChar_facts (n % 10) (Nat.mod_lt _ (by omega))).2
      rw [hd]
      omega

theorem digitsVal_natChars (n : Nat) : digitsVal (natChars n) = n := by
  rw [natChars]
  by_cases h0 : n = 0
  · subst h0; decide
  · rw [if_neg h0]
    exact digitsVal_rev n n (Nat.le_refl n)

/-- Every character of a rendered numeral is a decimal digit, never a
whitespace, quote, backslash, bracket or brace, and never a control
character. -/
theorem natChars_spec (n : Nat) :
    natChars n ≠ [] ∧ (∀ c ∈ natChars n, c.isDigit = true ∧ isWsChar c = false ∧
      c ≠ '"' ∧ c ≠ '\\' ∧ c ≠ '\x7b' ∧ c ≠ '[' ∧ 32 ≤ c.toNat) := by
  have hchar : ∀ d : Nat, d < 10 → (Nat.digitChar d).isDigit = true ∧
      isWsChar (Nat.digitChar d) = false ∧ Nat.digitChar d ≠ '"' ∧
      Nat.digitChar d ≠ '\\' ∧ Nat.digitChar d ≠ '\x7b' ∧
      Nat.digitChar d ≠ '[' ∧ 32 ≤ (Nat.digitChar d).toNat := by
    intro d hd
    interval_cases d <;>
      exact ⟨by decide, by decide, by decide, by decide, by decide, by decide, by decide⟩
  rw [natChars]
  by_cases h0 : n = 0
  · rw [if_pos h0]
    refine ⟨by simp, ?_⟩
    intro c hc
    simp at hc
    subst hc
    exact ⟨by decide, by decide, by decide, by decide, by decide, by decide, by decide⟩
  · rw [if_neg h0]
    constructor
    · obtain ⟨k, rfl⟩ := Nat.exists_eq_succ_of_ne_zero h0
      rw [natRevDigits, if_neg h0]
      simp
    · intro c hc
      rw [List.mem_map] at hc
      obtain ⟨d, hd, rfl⟩ := hc
      exact hchar d (natRevDigits_lt10 n n d (List.mem_reverse.mp hd))

/-- The timestamp text shares all the digit facts (it is a numeral or the
literal `0`). -/
theorem tsChunk_spec (ts : Int) :
    tsChunk ts ≠ [] ∧ (∀ c ∈ tsChunk ts, c.isDigit = true ∧ isWsChar c = false ∧
      c ≠ '"' ∧ c ≠ '\\' ∧ c ≠ '\x7b' ∧ c ≠ '[' ∧ 32 ≤ c.toNat) := by
  rw [tsChunk]
  by_cases h : 0 ≤ ts
  · rw [if_pos h]
    exact natChars_spec ts.toNat
  · rw [if_neg h]
    refine ⟨by simp, ?_⟩
    intro c hc
    simp at hc
    subst hc
    exact ⟨by decide, by decide, by decide, by decide, by decide, by decide, by decide⟩

/-! ### Primitive reader lemmas -/

theorem dropLit_append (p rest : List Char) : dropLit p (p ++ rest) = some rest := by
  induction p with
  | nil => rfl
  | cons c t ih =>
    rw [List.cons_append, dropLit, if_pos rfl]
    exact ih

theorem readStr_clean (s rest : List Char) (h : cleanChars s = true) :
    readStr (s ++ '"' :: rest) = some (s, rest) := by
  induction s with
  | nil => rfl
  | cons c t ih =>
    rw [cleanChars, List.all_cons, Bool.and_eq_true] at h
    obtain ⟨hc, ht⟩ := h
    rw [decide_eq_true_iff] at hc
    obtain ⟨h1, h2, h3⟩ := hc
    rw [List.cons_append, readStr, if_neg h1, if_neg (by push_neg; exact ⟨h2, by omega⟩)]
    rw [ih ht]

theorem readDigits_append (ds rest : List Char)
    (hds : ∀ c ∈ ds, c.isDigit = true)
    (hrest : ∀ c, rest.head? = some c → c.isDigit = false) :
    readDigits (ds ++ rest) = (ds, rest) := by
  induction ds with
  | nil =>
    simp only [List.nil_append]
    cases rest with
    | nil => rfl
    | cons c t =>
      rw [readDigits, if_neg (by rw [hrest c rfl]; exact Bool.false_ne_true)]
  | cons c t ih =>
    rw [List.cons_append, readDigits, if_pos (hds c (List.mem_cons_self c t))]
    rw [ih (fun x hx => hds x (List.mem_cons_of_mem c hx))]

theorem readNat_append (ds rest : List Char) (hne : ds ≠ [])
    (hds : ∀ c ∈ ds, c.isDigit = true)
    (hrest : ∀ c, rest.head? = some c → c.isDigit = false) :
    readNat (ds ++ rest) = some (digitsVal ds, rest) := by
  rw [readNat, readDigits_append ds rest hds hrest]
  cases ds with
  | nil => exact absurd rfl hne
  | cons c t => rfl

theorem head_cons_not_digit (c0 : Char) (t : List Char) (h0 : c0.isDigit = false) :
    ∀ c, (c0 :: t : List Char).head? = some c → c.isDigit = false := by
  intro c hc
  simp only [List.head?, Option.some.injEq] at hc
  rw [← hc]
  exact h0

theorem bridge_url_close (X : List Char) :
    (['\"', ',', '\n', ' ', ' ', ' ', ' '] : List Char) ++ X = '"' :: ([',', '\n', ' ', ' ', ' ', ' '] ++ X) := rfl

theorem bridge_msg_close (X : List Char) :
    (['\"', ' ', '\x7d'] : List Char) ++ X = '"' :: ([' ', '\x7d'] ++ X) := rfl

theorem recordChunk_true (r : WebsiteStatus) (X : List Char) :
    recordChunk r true ++ X = recordObj r ++ ('\n' :: X) := by
  rw [recordChunk]
  simp

theorem recordChunk_false (r : WebsiteStatus) (X : List Char) :
    recordChunk r false ++ X = recordObj r ++ (',' :: ('\n' :: X)) := by
  rw [recordChunk]
  simp

/-- Decoding one record of the document recovers exactly the record data
(clean string fields assumed), telling apart the comma and comma-less
forms. -/
theorem decodeRecord_chunk (r : WebsiteStatus) (lastOne : Bool) (rest : List Char)
    (h : cleanRecord r = true) :
    decodeRecord (recordChunk r lastOne ++ rest) =
      some ((r.url, r.action_status, r.response_time), !lastOne, rest) := by
  obtain ⟨url, act, ms, ts⟩ := r
  rw [cleanRecord, Bool.and_eq_true] at h
  obtain ⟨hurl, hact⟩ := h
  have hrsU : ∀ X, readStr (url ++ ('"' :: X)) = some (url, X) :=
    fun X => readStr_clean url X hurl
  have hmsS := natChars_spec ms
  have hrnMS : ∀ X, readNat (natChars ms ++ (([',', '\n', ' ', ' ', ' ', ' ', '\"', 't', 'i', 'm', 'e', 's', 't', 'a', 'm', 'p', '\"', ':', ' ', '\"'] : List Char) ++ X)) =
      some (ms, ([',', '\n', ' ', ' ', ' ', ' ', '\"', 't', 'i', 'm', 'e', 's', 't', 'a', 'm', 'p', '\"', ':', ' ', '\"'] : List Char) ++ X) := by
    intro X
    have hh := readNat_append (natChars ms) (([',', '\n', ' ', ' ', ' ', ' ', '\"', 't', 'i', 'm', 'e', 's', 't', 'a', 'm', 'p', '\"', ':', ' ', '\"'] : List Char) ++ X) hmsS.1
      (fun c hc => (hmsS.2 c hc).1) (head_cons_not_digit ',' _ (by decide))
    rw [hh, digitsVal_natChars]
  have htsS := tsChunk_spec ts
  obtain ⟨tc, tt, htc⟩ := List.exists_cons_of_ne_nil htsS.1
  have htsD : ∀ c ∈ tc :: tt, c.isDigit = true := by
    rw [← htc]
    exact fun c hc => (htsS.2 c hc).1
  have hrnTS : ∀ X, readNat ((tc :: tt) ++ ((['\"', '\n', ' ', ' ', '\x7d'] : List Char) ++ X)) =
      some (digitsVal (tc :: tt), (['\"', '\n', ' ', ' ', '\x7d'] : List Char) ++ X) := by
    intro X
    have hh := readNat_append (tc :: tt) ((['\"', '\n', ' ', ' ', '\x7d'] : List Char) ++ X) (by simp) htsD
      (head_cons_not_digit '"' _ (by decide))
    rw [hh]
  have hsepT : ∀ X, decodeSep ('\n' :: X) = some (false, X) := fun X => rfl
  have hsepF : ∀ X, decodeSep (',' :: ('\n' :: X)) = some (true, X) := fun X => rfl
  cases act with
  | ok code =>
    have hcdS := natChars_spec code
    have hrnC : ∀ X, readNat (natChars code ++ (([' ', '\x7d'] : List Char) ++ X)) =
        some (code, ([' ', '\x7d'] : List Char) ++ X) := by
      intro X
      have hh := readNat_append (natChars code) (([' ', '\x7d'] : List Char) ++ X) hcdS.1
        (fun c hc => (hcdS.2 c hc).1) (head_cons_not_digit ' ' _ (by decide))
      rw [hh, digitsVal_natChars]
    cases lastOne with
    | true =>
      rw [recordChunk_true]
      simp only [recordObj, actionChunk, htc, List.append_assoc]
      simp only [decodeRecord, decodeAction, dropLit_append, bridge_url_close, hrsU,
        hrnC, hrnMS, hrnTS, hsepT, Bool.not_true]
    | false =>
      rw [recordChunk_false]
      simp only [recordObj, actionChunk, htc, List.append_assoc]
      simp only [decodeRecord, decodeAction, dropLit_append, bridge_url_close, hrsU,
        hrnC, hrnMS, hrnTS, hsepF, Bool.not_false]
  | error msg =>
    have hmsg : cleanChars msg = true := hact
    have hrsM : ∀ X, readStr (msg ++ ('"' :: X)) = some (msg, X) :=
      fun X => readStr_clean msg X hmsg
    have hOkFail : ∀ X, dropLit (['\"', 'a', 'c', 't', 'i', 'o', 'n', '_', 's', 't', 'a', 't', 'u', 's', '\"', ':', ' ', '\x7b', ' ', '\"', 'O', 'k', '\"', ':', ' '] : List Char) ((['\"', 'a', 'c', 't', 'i', 'o', 'n', '_', 's', 't', 'a', 't', 'u', 's', '\"', ':', ' ', '\x7b', ' ', '\"', 'E', 'r', 'r', '\"', ':', ' ', '\"'] : List Char) ++ X) = none :=
      fun X => rfl
    cases lastOne with
    | true =>
      rw [recordChunk_true]
      simp only [recordObj, actionChunk, htc, List.append_assoc]
      simp only [decodeRecord, decodeAction, hOkFail, dropLit_append, bridge_url_close,
        bridge_msg_close, hrsU, hrsM, hrnMS, hrnTS, hsepT, Bool.not_true]
    | false =>
      rw [recordChunk_false]
      simp only [recordObj, actionChunk, htc, List.append_assoc]
      simp only [decodeRecord, decodeAction, hOkFail, dropLit_append, bridge_url_close,
        bridge_msg_close, hrsU, hrsM, hrnMS, hrnTS, hsepF, Bool.not_false]

theorem recordChunks_nil : recordChunks [] = [] := rfl

theorem recordChunks_one (r : WebsiteStatus) : recordChunks [r] = recordChunk r true := rfl

theorem recordChunks_cons_cons (r b : WebsiteStatus) (u : List WebsiteStatus) :
    recordChunks (r :: b :: u) = recordChunk r false ++ recordChunks (b :: u) := rfl

theorem recordChunk_length_pos (r : WebsiteStatus) (b : Bool) :
    1 ≤ (recordChunk r b).length := by
  rw [recordChunk]
  simp [List.length_append]
  omega

theorem recordChunks_length_ge (rs : List WebsiteStatus) :
    rs.length ≤ (recordChunks rs).length := by
  induction rs with
  | nil => simp [recordChunks_nil]
  | cons r t ih =>
    cases t with
    | nil =>
      rw [recordChunks_one]
      simpa using recordChunk_length_pos r true
    | cons b u =>
      rw [recordChunks_cons_cons]
      rw [List.length_append, List.length_cons]
      have := recordChunk_length_pos r false
      omega

theorem decRecs_chunks (rs : List WebsiteStatus) :
    rs ≠ [] → rs.all cleanRecord = true →
    ∀ fuel, rs.length < fuel →
      decRecs fuel (recordChunks rs ++ "]\n".data) = some (reportTuples rs) := by
  induction rs with
  | nil => intro h; exact absurd rfl h
  | cons r t ih =>
    intro _ hcl fuel hf
    rw [List.all_cons, Bool.and_eq_true] at hcl
    obtain ⟨hr, ht⟩ := hcl
    cases fuel with
    | zero => omega
    | succ f =>
      cases t with
      | nil =>
        rw [recordChunks_one, decRecs, decodeRecord_chunk r true _ hr]
        simp [reportTuples]
      | cons b u =>
        rw [recordChunks_cons_cons, List.append_assoc, decRecs,
          decodeRecord_chunk r false _ hr]
        have hrec := ih (by simp) ht f (by simp at hf ⊢; omega)
        simp only [Bool.not_false, hrec]
        simp [reportTuples]

/-- Decoding the persisted document recovers exactly the collected
`(url, action_status, response_time_ms)` tuples, provided every string
field is clean. -/
theorem decodeReport_write_json (rs : List WebsiteStatus)
    (h : rs.all cleanRecord = true) :
    decodeReport (write_json rs) = some (reportTuples rs) := by
  cases rs with
  | nil => decide
  | cons r t =>
    have hlen0 := recordChunks_length_ge (r :: t)
    have hne : recordChunks (r :: t) ++ "]\n".data ≠ "]\n".data := by
      intro heq
      have hl := congrArg List.length heq
      rw [List.length_append] at hl
      have h2 : ("]\n".data).length = 2 := rfl
      rw [h2] at hl
      simp only [List.length_cons] at hlen0
      omega
    have hstep : decodeReport (write_json (r :: t)) =
        decRecs (recordChunks (r :: t) ++ "]\n".data).length
          (recordChunks (r :: t) ++ "]\n".data) := by
      rw [write_json, List.append_assoc, decodeReport, dropLit_append]
      show (if recordChunks (r :: t) ++ "]\n".data = "]\n".data then some [] else
        decRecs (recordChunks (r :: t) ++ "]\n".data).length
          (recordChunks (r :: t) ++ "]\n".data)) = _
      rw [if_neg hne]
    rw [hstep]
    apply decRecs_chunks (r :: t) (by simp) h
    have h2 : ("]\n".data).length = 2 := rfl
    rw [List.length_append, h2]
    simp only [List.length_cons] at hlen0 ⊢
    exact Nat.lt_succ_of_le (Nat.le_succ_of_le hlen0)

/-! ### Ground stepping lemmas for the JSON checker -/

theorem wsSkip_cons (c : Char) (Y : List Char) :
    wsSkip (c :: Y) = if isWsChar c then wsSkip Y else c :: Y := rfl

theorem wsSkip_sp (Y : List Char) : wsSkip (' ' :: Y) = wsSkip Y := rfl

theorem wsSkip_nlc (Y : List Char) : wsSkip ('\n' :: Y) = wsSkip Y := rfl

theorem wsSkip_q (Y : List Char) : wsSkip ('"' :: Y) = '"' :: Y := rfl

theorem wsSkip_lb (Y : List Char) : wsSkip ('\x7b' :: Y) = '\x7b' :: Y := rfl

theorem wsSkip_rb (Y : List Char) : wsSkip ('\x7d' :: Y) = '\x7d' :: Y := rfl

theorem wsSkip_cm (Y : List Char) : wsSkip (',' :: Y) = ',' :: Y := rfl

theorem wsSkip_cl (Y : List Char) : wsSkip (':' :: Y) = ':' :: Y := rfl

theorem wsSkip_lk (Y : List Char) : wsSkip ('[' :: Y) = '[' :: Y := rfl

theorem wsSkip_rk (Y : List Char) : wsSkip (']' :: Y) = ']' :: Y := rfl

theorem readStr_key_url (Y : List Char) :
    readStr ('u' :: 'r' :: 'l' :: '"' :: Y) = some (['u', 'r', 'l'], Y) := rfl

theorem readStr_key_action (Y : List Char) :
    readStr ('a' :: 'c' :: 't' :: 'i' :: 'o' :: 'n' :: '_' :: 's' :: 't' :: 'a' :: 't' ::
      'u' :: 's' :: '"' :: Y) =
    some (['a', 'c', 't', 'i', 'o', 'n', '_', 's', 't', 'a', 't', 'u', 's'], Y) := rfl

theorem readStr_key_ok (Y : List Char) :
    readStr ('O' :: 'k' :: '"' :: Y) = some (['O', 'k'], Y) := rfl

theorem readStr_key_err (Y : List Char) :
    readStr ('E' :: 'r' :: 'r' :: '"' :: Y) = some (['E', 'r', 'r'], Y) := rfl

theorem readStr_key_resp (Y : List Char) :
    readStr ('r' :: 'e' :: 's' :: 'p' :: 'o' :: 'n' :: 's' :: 'e' :: '_' :: 't' :: 'i' ::
      'm' :: 'e' :: '_' :: 'm' :: 's' :: '"' :: Y) =
    some (['r', 'e', 's', 'p', 'o', 'n', 's', 'e', '_', 't', 'i', 'm', 'e', '_', 'm', 's'], Y) := rfl

theorem readStr_key_ts (Y : List Char) :
    readStr ('t' :: 'i' :: 'm' :: 'e' :: 's' :: 't' :: 'a' :: 'm' :: 'p' :: '"' :: Y) =
    some (['t', 'i', 'm', 'e', 's', 't', 'a', 'm', 'p'], Y) := rfl

/-- The checker accepts one record object (with its leading line break and
indentation) as a JSON value, consuming exactly 11 fuel levels. -/
theorem jP_v_record (r : WebsiteStatus) (rest : List Char) (h : cleanRecord r = true)
    (f : Nat) :
    jP (f + 1 + 1 + 1 + 1 + 1 + 1 + 1 + 1 + 1 + 1 + 1) JMode.v
      ('\n' :: (recordObj r ++ rest)) = some rest := by
  obtain ⟨url, act, ms, ts⟩ := r
  rw [cleanRecord, Bool.and_eq_true] at h
  obtain ⟨hurl, hact⟩ := h
  have hrsU : ∀ X, readStr (url ++ ('"' :: X)) = some (url, X) :=
    fun X => readStr_clean url X hurl
  have hmsS := natChars_spec ms
  obtain ⟨mc, mt, hmc⟩ := List.exists_cons_of_ne_nil hmsS.1
  have hmcm : mc ∈ natChars ms := by rw [hmc]; exact List.mem_cons_self _ _
  obtain ⟨hmd, hmw, hmq, hmbs, hmbr, hmbk, hm32⟩ := hmsS.2 mc hmcm
  have hmq1 : (mc = '"') = False := eq_false hmq
  have hmb1 : (mc = '\x7b') = False := eq_false hmbr
  have hmk1 : (mc = '[') = False := eq_false hmbk
  have hwsm : ∀ Y, wsSkip (mc :: Y) = mc :: Y := by
    intro Y
    rw [wsSkip_cons, hmw]
    simp
  have hmdigits : ∀ c ∈ mc :: mt, c.isDigit = true := by
    rw [← hmc]
    exact fun c hc => (hmsS.2 c hc).1
  have hrnM : ∀ X, readNat (mc :: (mt ++ (',' :: X))) = some (ms, ',' :: X) := by
    intro X
    have hh := readNat_append (mc :: mt) (',' :: X) (by simp) hmdigits
      (head_cons_not_digit ',' X (by decide))
    have hv : digitsVal (mc :: mt) = ms := by rw [← hmc, digitsVal_natChars]
    rw [hv] at hh
    exact hh
  have htsS := tsChunk_spec ts
  obtain ⟨tc, tt, htc⟩ := List.exists_cons_of_ne_nil htsS.1
  have hcleanTS : cleanChars (tc :: tt) = true := by
    rw [← htc, cleanChars, List.all_eq_true]
    intro c hc
    rw [decide_eq_true_iff]
    obtain ⟨_, _, h3, h4, _, _, h7⟩ := htsS.2 c hc
    exact ⟨h3, h4, h7⟩
  have hrsTS : ∀ X, readStr (tc :: (tt ++ ('"' :: X))) = some (tc :: tt, X) :=
    fun X => readStr_clean (tc :: tt) X hcleanTS
  cases act with
  | ok code =>
    have hcdS := natChars_spec code
    obtain ⟨cc, ct, hcc⟩ := List.exists_cons_of_ne_nil hcdS.1
    have hccm : cc ∈ natChars code := by rw [hcc]; exact List.mem_cons_self _ _
    obtain ⟨hcd, hcw, hcq, hcbs, hcbr, hcbk, hc32⟩ := hcdS.2 cc hccm
    have hcq1 : (cc = '"') = False := eq_false hcq
    have hcb1 : (cc = '\x7b') = False := eq_false hcbr
    have hck1 : (cc = '[') = False := eq_false hcbk
    have hwsc : ∀ Y, wsSkip (cc :: Y) = cc :: Y := by
      intro Y
      rw [wsSkip_cons, hcw]
      simp
    have hcdigits : ∀ c ∈ cc :: ct, c.isDigit = true := by
      rw [← hcc]
      exact fun c hc => (hcdS.2 c hc).1
    have hrnC : ∀ X, readNat (cc :: (ct ++ (' ' :: X))) = some (code, ' ' :: X) := by
      intro X
      have hh := readNat_append (cc :: ct) (' ' :: X) (by simp) hcdigits
        (head_cons_not_digit ' ' X (by decide))
      have hv : digitsVal (cc :: ct) = code := by rw [← hcc, digitsVal_natChars]
      rw [hv] at hh
      exact hh
    simp only [recordObj, actionChunk, htc, hmc, hcc, List.append_assoc, List.cons_append,
      List.nil_append]
    simp only [jP, wsSkip_sp, wsSkip_nlc, wsSkip_q, wsSkip_lb, wsSkip_rb, wsSkip_cm,
      wsSkip_cl, wsSkip_lk, wsSkip_rk, hwsm, hwsc, readStr_key_url, readStr_key_action,
      readStr_key_ok, readStr_key_resp, readStr_key_ts, hrsU, hrsTS, hrnM, hrnC,
      hmq1, hmb1, hmk1, hcq1, hcb1, hck1, Char.reduceEq, if_true, if_false,
      eq_self_iff_true, ite_true, ite_false]
  | error msg =>
    have hmsg : cleanChars msg = true := hact
    have hrsM : ∀ X, readStr (msg ++ ('"' :: X)) = some (msg, X) :=
      fun X => readStr_clean msg X hmsg
    simp only [recordObj, actionChunk, htc, hmc, List.append_assoc, List.cons_append,
      List.nil_append]
    simp only [jP, wsSkip_sp, wsSkip_nlc, wsSkip_q, wsSkip_lb, wsSkip_rb, wsSkip_cm,
      wsSkip_cl, wsSkip_lk, wsSkip_rk, hwsm, readStr_key_url, readStr_key_action,
      readStr_key_err, readStr_key_resp, readStr_key_ts, hrsU, hrsM, hrsTS, hrnM,
      hmq1, hmb1, hmk1, Char.reduceEq, if_true, if_false, eq_self_iff_true,
      ite_true, ite_false]

theorem wsSkip_chunks_head (r : WebsiteStatus) (t : List WebsiteStatus) (X : List Char) :
    ∃ Y, wsSkip ('\n' :: (recordChunks (r :: t) ++ X)) = '\x7b' :: Y := by
  cases t with
  | nil => exact ⟨_, rfl⟩
  | cons b u => exact ⟨_, rfl⟩

/-- The checker accepts the element list of the document: each record is a
value, separated by commas, closed by `]`. -/
theorem jP_elems_chunks (rs : List WebsiteStatus) :
    rs ≠ [] → rs.all cleanRecord = true →
    ∀ f, jP (f + 12 * rs.length) JMode.elems
      ('\n' :: (recordChunks rs ++ "]\n".data)) = some ['\n'] := by
  induction rs with
  | nil => intro h; exact absurd rfl h
  | cons r t ih =>
    intro _ hcl f
    rw [List.all_cons, Bool.and_eq_true] at hcl
    obtain ⟨hr, ht⟩ := hcl
    cases t with
    | nil =>
      have hfu : f + 12 * ([r] : List WebsiteStatus).length =
          (f + 1 + 1 + 1 + 1 + 1 + 1 + 1 + 1 + 1 + 1 + 1) + 1 := by
        simp only [List.length_cons, List.length_nil]
        try omega
      rw [recordChunks_one, recordChunk_true, hfu, jP]
      rw [jP_v_record r ('\n' :: "]\n".data) hr f]
      rfl
    | cons b u =>
      have hfu : f + 12 * (r :: b :: u).length =
          ((f + 11) + 12 * (b :: u).length) + 1 := by
        simp only [List.length_cons]
        omega
      have hfu2 : (f + 11) + 12 * (b :: u).length =
          (f + 12 * (b :: u).length) + 1 + 1 + 1 + 1 + 1 + 1 + 1 + 1 + 1 + 1 + 1 := by
        omega
      rw [recordChunks_cons_cons, List.append_assoc, recordChunk_false, hfu, jP, hfu2]
      rw [jP_v_record r (',' :: ('\n' :: (recordChunks (b :: u) ++ "]\n".data))) hr
        (f + 12 * (b :: u).length)]
      have hrec := ih (by simp) ht (f + 11)
      rw [hfu2] at hrec
      simp only [wsSkip_cm, Char.reduceEq, if_true, if_false, ite_true, ite_false]
      exact hrec

theorem recordChunk_length_ge (r : WebsiteStatus) (b : Bool) :
    12 ≤ (recordChunk r b).length := by
  rw [recordChunk, recordObj]
  simp [List.length_append]
  try omega

theorem recordChunks_length_ge12 (rs : List WebsiteStatus) :
    12 * rs.length ≤ (recordChunks rs).length := by
  induction rs with
  | nil => simp [recordChunks_nil]
  | cons r t ih =>
    cases t with
    | nil =>
      rw [recordChunks_one]
      have := recordChunk_length_ge r true
      simp only [List.length_cons, List.length_nil]
      omega
    | cons b u =>
      rw [recordChunks_cons_cons, List.length_append]
      have h1 := recordChunk_length_ge r false
      simp only [List.length_cons] at ih ⊢
      omega

/-- The persisted document is syntactically valid JSON (clean string fields
assumed): the checker accepts it with the fuel `jsonValid` supplies. -/
theorem jsonValid_write_json (rs : List WebsiteStatus)
    (h : rs.all cleanRecord = true) :
    jsonValid (write_json rs) = true := by
  cases rs with
  | nil => decide
  | cons r t =>
    have hchunk := recordChunks_length_ge12 (r :: t)
    have hdoc : (write_json (r :: t)).length = (recordChunks (r :: t)).length + 4 := by
      rw [write_json]
      simp [List.length_append]
    obtain ⟨g, hg⟩ : ∃ g, (write_json (r :: t)).length + 1 =
        (g + 12 * (r :: t).length) + 1 :=
      ⟨(write_json (r :: t)).length - 12 * (r :: t).length, by omega⟩
    have hws0 : ∀ Y, wsSkip ("[\n".data ++ Y) = '[' :: ('\n' :: Y) := fun Y => rfl
    obtain ⟨Y0, hY0⟩ := wsSkip_chunks_head r t "]\n".data
    rw [jsonValid, hg, jP, write_json, List.append_assoc]
    simp only [hws0, hY0, Char.reduceEq, if_true, if_false, ite_true, ite_false]
    rw [jP_elems_chunks (r :: t) (by simp) h g]
    rfl

/-- Claim C5 as amended: for every sequence of collected outcomes whose url
and error-message strings contain no `"`, no `\` and no control character,
the persisted `status.json` document is syntactically valid JSON, and
decoding it reproduces exactly the collected sequence of
`(url, Ok-code-or-Err-message, response_time_ms)` tuples.  (For strings
containing such characters the claim fails: `write_json` performs no
escaping — see the counterexample.) -/
theorem c5_report_valid_and_roundtrip (rs : List WebsiteStatus)
    (h : rs.all cleanRecord = true) :
    jsonValid (write_json rs) = true ∧
    decodeReport (write_json rs) = some (reportTuples rs) :=
  ⟨jsonValid_write_json rs h, decodeReport_write_json rs h⟩

set_option maxRecDepth 40000 in
/-- Witness for `c5_report_valid_and_roundtrip` on a concrete two-record
report. -/
theorem c5_report_valid_and_roundtrip_witness :
    ([⟨"http://a".data, .ok 200, 123, 1700000000⟩,
      ⟨"http://b".data, .error "timed out".data, 5000, 1700000001⟩] :
        List WebsiteStatus).all cleanRecord = true ∧
    (jsonValid (write_json [⟨"http://a".data, .ok 200, 123, 1700000000⟩,
        ⟨"http://b".data, .error "timed out".data, 5000, 1700000001⟩]) = true ∧
      decodeReport (write_json [⟨"http://a".data, .ok 200, 123, 1700000000⟩,
        ⟨"http://b".data, .error "timed out".data, 5000, 1700000001⟩]) =
        some (reportTuples [⟨"http://a".data, .ok 200, 123, 1700000000⟩,
          ⟨"http://b".data, .error "timed out".data, 5000, 1700000001⟩])) :=
  ⟨by decide, c5_report_valid_and_roundtrip _ (by decide)⟩
